import Mathlib

/-!
Verification of the render-queue database layer (`renderqueue/database.py`).

The database is a directory tree: `jobs/` holds one JSON record per job,
`tasks/queued`, `tasks/completed`, `tasks/failed` and `workers/<workerID>/`
hold one JSON record per task, and a task's lifecycle state is encoded by
which directory its record lives in.  We embed that tree as the structure
`DB` below: each area is a list of files, a file being a filename stem
(the pattern `<jobID>_<paddedTaskNo>.json` used by every glob in the code)
together with its parsed JSON content.  Parse failures of job and worker
records are represented by an `Option` content (`none` = unreadable JSON),
since the code's behaviour on corrupt records is part of what we verify.

The helper modules `oswrapper` (atomic file move / remove) and `sequence`
(frame-range notation parsing and compaction) are not part of the sources;
the definitions standing in for them are marked `Modelled from the spec:`
and follow the specification text (atomic relocation semantics in spec
sections 4.2 and 5; frame-range notation and the contiguity invariant in
spec section 4.4).  Everything else is translated line by line from
`database.py`.
-/

namespace RenderQueue

/-- Content of a task JSON record, as written by `newJob` (`database.py`
lines 70-80): the owning job's id, the task number, and the frame-range
string. -/
structure TaskData where
  jobID : String
  taskNo : Nat
  frames : String
deriving DecidableEq

/-- A task file in one of the state areas: the filename stem
`<fJobID>_<zero-padded fTaskNo>.json` that every glob pattern in the code
matches on, plus the parsed JSON content.  (Job identifiers are 32-char
`uuid4().hex` strings, so they contain no underscore and the glob
`<jobID>_*.json` matches exactly the files whose id segment equals
`jobID`; we model that match as equality on `fJobID`.) -/
structure TaskFile where
  fJobID : String
  fTaskNo : Nat
  data : TaskData
deriving DecidableEq

/-- Content of a job JSON record, as written by `newJob` (`database.py`
lines 59-65): the generated id plus the submitted fields the queue code
reads (`jobName`, `priority`, and the frame-range list `tasks` used to
seed task records). -/
structure JobData where
  jobID : String
  jobName : String
  priority : Int
  tasks : List String
deriving DecidableEq

/-- A file in the `jobs/` area: filename stem (the job id) and parsed
content; `none` models a file whose JSON does not parse. -/
structure JobFile where
  fname : String
  data : Option JobData
deriving DecidableEq

/-- Content of a `workerinfo.json` record (`database.py` lines 383-394). -/
structure WorkerData where
  id : String
  status : String
deriving DecidableEq

/-- A per-worker directory under `workers/`: its directory name (the
worker id), its `workerinfo.json` content (`none` models a file whose
JSON does not parse), and the task files currently in this worker's
claim area. -/
structure WorkerDir where
  wname : String
  info : Option WorkerData
  claimed : List TaskFile
deriving DecidableEq

/-- The whole on-disk database: the root path (`db_root`) and the file
areas created in `RenderQueue.__init__` (`database.py` lines 35-50). -/
structure DB where
  root : String
  jobs : List JobFile
  queued : List TaskFile
  completed : List TaskFile
  failed : List TaskFile
  workers : List WorkerDir
deriving DecidableEq

/-- Python's `str(n).zfill(4)` for a natural number: left-pad the decimal
representation with zeros to at least four characters. -/
def zfill4 (n : Nat) : String :=
  let s := toString n
  String.mk (List.replicate (4 - s.length) '0') ++ s

/-- Filename of a task record, `'%s_%s.json' % (jobID, str(n).zfill(4))`
as built throughout `database.py`. -/
def taskFileName (tf : TaskFile) : String :=
  tf.fJobID ++ "_" ++ zfill4 tf.fTaskNo ++ ".json"

/-- Boolean substring test on character lists: does `pat` occur
contiguously inside `s`?  Implements Python's `pat in s`. -/
def listContainsSub (pat : List Char) : List Char → Bool
  | [] => pat.isEmpty
  | c :: t => pat.isPrefixOf (c :: t) || listContainsSub pat t

/-- Python's `pat in s` substring test on strings. -/
def strContains (s pat : String) : Bool :=
  listContainsSub pat.toList s.toList

/-- Full path of a task file in the `tasks/queued` area. -/
def queuedTaskPath (root : String) (tf : TaskFile) : String :=
  root ++ "/tasks/queued/" ++ taskFileName tf

/-- Full path of a task file in the `tasks/completed` area. -/
def completedTaskPath (root : String) (tf : TaskFile) : String :=
  root ++ "/tasks/completed/" ++ taskFileName tf

/-- Full path of a task file in the `tasks/failed` area. -/
def failedTaskPath (root : String) (tf : TaskFile) : String :=
  root ++ "/tasks/failed/" ++ taskFileName tf

/-- Full path of a task file in a worker's claim area
`workers/<wname>/`. -/
def workerTaskPath (root wname : String) (tf : TaskFile) : String :=
  root ++ "/workers/" ++ wname ++ "/" ++ taskFileName tf

/-- Insert `a` into `l` after every element `b` with `le b a`.  Helper
for `sortBy`. -/
def insertSorted (le : α → α → Bool) (a : α) : List α → List α
  | [] => [a]
  | b :: t => if le b a then b :: insertSorted le a t else a :: b :: t

/-- Python's built-in `sorted` with a key function, as used in
`dequeueJob` (`database.py` lines 207 and 213).  Python's sort is
stable, and a stable sort's output is uniquely determined by the
ordering, so we model it by stable insertion sort. -/
def sortBy (le : α → α → Bool) (l : List α) : List α :=
  l.foldl (fun acc a => insertSorted le a acc) []

/-- Ascending run of integers from `x` to `y` inclusive (empty when
`y < x`). -/
def intRange (x y : Int) : List Int :=
  (List.range (y + 1 - x).toNat).map (fun i => x + i)

/-- Split a character list at every occurrence of the separator `c`
(the pieces do not contain `c`; n separators give n+1 pieces). -/
def splitOnChar (c : Char) : List Char → List (List Char)
  | [] => [[]]
  | x :: t =>
    let r := splitOnChar c t
    if x = c then [] :: r
    else
      match r with
      | [] => [[x]]
      | h :: t' => (x :: h) :: t'

/-- Drop leading and trailing spaces from a character list. -/
def trimChars (l : List Char) : List Char :=
  ((l.dropWhile (fun c => c = ' ')).reverse.dropWhile
    (fun c => c = ' ')).reverse

/-- Parse a non-empty all-digit character list as a natural number. -/
def parseNatChars (l : List Char) : Option Nat :=
  if l.isEmpty then none
  else
    l.foldl (fun acc c =>
      match acc with
      | none => none
      | some n => if c.isDigit then some (n * 10 + (c.toNat - 48)) else none)
      (some 0)

/-- Modelled from the spec: `sequence.numList` (module `sequence` is not
in the sources).  Parses compact frame-range notation — comma-separated
items, each a single frame number `n` or an inclusive range `a-b`, with
frame numbers nonnegative integers — into the flat list of frame
numbers (spec sections 3 and 4.4). -/
def numList (s : String) : List Int :=
  (splitOnChar ',' s.toList).flatMap fun part =>
    let p := trimChars part
    match splitOnChar '-' p with
    | [x] =>
      match parseNatChars x with
      | some n => [(n : Int)]
      | none => []
    | [x, y] =>
      match parseNatChars x, parseNatChars y with
      | some n, some m => intRange (n : Int) (m : Int)
      | _, _ => []
    | _ => []

/-- Modelled from the spec: the sanity check in `combineTasks`
(`database.py` lines 357-367) composed with `sequence.numRange` (module
`sequence` is not in the sources).  The code renders the union of frames
in compact notation, splits on `-` expecting exactly `start-end`, and
asserts `start < end`; per spec section 4.4 this succeeds exactly when
the union of the frames reduces to one contiguous ascending range with
no gaps (span equals count) and more than one frame.  Returns the range
endpoints on success, `none` on the (caught) failure. -/
def contiguousRange (frames : List Int) : Option (Int × Int) :=
  let s := (sortBy (fun a b => decide (a ≤ b)) frames).dedup
  match s with
  | [] => none
  | a :: rest =>
    let b := (a :: rest).getLast (List.cons_ne_nil a rest)
    if a < b ∧ (a :: rest).length = (b - a + 1).toNat then some (a, b)
    else none

/-- Rendering `'%s-%s' % (start, end)` of the combined frame range
(`database.py` line 363). -/
def rangeString (a b : Int) : String :=
  toString a ++ "-" ++ toString b

/-- Loop body of `getJobs` (`database.py` lines 118-126): `json.load`
each record in turn; there is no try/except here, so the first corrupt
record raises and aborts the whole listing (modelled as `Except.error`). -/
def getJobsLoop : List JobFile → Except Unit (List JobData)
  | [] => .ok []
  | jf :: rest =>
    match jf.data with
    | none => .error ()
    | some jd =>
      match getJobsLoop rest with
      | .error e => .error e
      | .ok tail => .ok (jd :: tail)

/-- `RenderQueue.getJobs` (`database.py` lines 118-126). -/
def getJobs (db : DB) : Except Unit (List JobData) :=
  getJobsLoop db.jobs

/-- Loop body of `getWorkers` (`database.py` lines 397-408): a
`json.decoder.JSONDecodeError` is caught, the bad record is logged and
skipped, and the loop continues. -/
def getWorkersLoop : List WorkerDir → List WorkerData
  | [] => []
  | w :: rest =>
    match w.info with
    | some d => d :: getWorkersLoop rest
    | none => getWorkersLoop rest

/-- `RenderQueue.getWorkers` (`database.py` lines 397-408). -/
def getWorkers (db : DB) : List WorkerData :=
  getWorkersLoop db.workers

/-- `RenderQueue.getQueuedTasks` (`database.py` lines 153-162): glob
`tasks/queued/<jobID>_*.json` and return the parsed records. -/
def getQueuedTasks (db : DB) (jid : String) : List TaskData :=
  (db.queued.filter (fun tf => tf.fJobID == jid)).map (fun tf => tf.data)

/-- The glob `'%s/*/*/%s_*.json' % (db_root, jobID)` used by `getTasks`
(`database.py` line 134): all task files of the job across the
`queued`, `completed`, `failed` and per-worker areas, paired with their
full path (the directory scan order is unspecified in the source; we fix
one admissible order). -/
def globJobFiles (db : DB) (jid : String) : List (String × TaskData) :=
  ((db.queued.filter (fun tf => tf.fJobID == jid)).map
    (fun tf => (queuedTaskPath db.root tf, tf.data)))
  ++ ((db.completed.filter (fun tf => tf.fJobID == jid)).map
    (fun tf => (completedTaskPath db.root tf, tf.data)))
  ++ ((db.failed.filter (fun tf => tf.fJobID == jid)).map
    (fun tf => (failedTaskPath db.root tf, tf.data)))
  ++ (db.workers.flatMap (fun w =>
    (w.claimed.filter (fun tf => tf.fJobID == jid)).map
      (fun tf => (workerTaskPath db.root w.wname tf, tf.data))))

/-- Loop body of `getTasks` (`database.py` lines 135-149): derive a
status label from each matched filename by substring tests, in exactly
the source's order, and return the parsed record augmented with it. -/
def getTasksLoop : List (String × TaskData) → List (TaskData × String)
  | [] => []
  | (path, d) :: rest =>
    let status :=
      if strContains path "workers" then "Working"
      else if strContains path "queued" then "Queued"
      else if strContains path "completed" then "Done"
      else if strContains path "failed" then "Failed"
      else "Unknown"
    (d, status) :: getTasksLoop rest

/-- `RenderQueue.getTasks` (`database.py` lines 129-150). -/
def getTasks (db : DB) (jid : String) : List (TaskData × String) :=
  getTasksLoop (globJobFiles db jid)

/-- Writing a job file with `open(.., 'w')`: overwrite the record with
the same filename if one exists, otherwise create it. -/
def writeJobFile (jobs : List JobFile) (jf : JobFile) : List JobFile :=
  if jobs.any (fun g => g.fname == jf.fname) then
    jobs.map (fun g => if g.fname == jf.fname then jf else g)
  else jobs ++ [jf]

/-- Writing a task file with `open(.., 'w')` into an area: overwrite the
record with the same filename if one exists, otherwise create it. -/
def writeTaskFile (area : List TaskFile) (tf : TaskFile) : List TaskFile :=
  if area.any (fun g => g.fJobID == tf.fJobID && g.fTaskNo == tf.fTaskNo) then
    area.map (fun g =>
      if g.fJobID == tf.fJobID && g.fTaskNo == tf.fTaskNo then tf else g)
  else area ++ [tf]

/-- Look up the queued task file named `<jid>_<tid padded>.json`. -/
def findQueuedTask (db : DB) (jid : String) (tid : Nat) : Option TaskFile :=
  db.queued.find? (fun tf => tf.fJobID == jid && tf.fTaskNo == tid)

/-- `oswrapper.recurseRemove` of the queued task file named
`<jid>_<tid padded>.json`: the file with that name is deleted (filenames
are unique in a directory, so this removes every model entry carrying
that name). -/
def removeQueuedTask (db : DB) (jid : String) (tid : Nat) : DB :=
  { db with queued :=
      db.queued.filter (fun tf => !(tf.fJobID == jid && tf.fTaskNo == tid)) }

/-- Write the task record `d` into `tasks/queued` under the filename
`<jid>_<tid padded>.json`. -/
def writeQueuedTask (db : DB) (jid : String) (tid : Nat) (d : TaskData) : DB :=
  { db with queued := writeTaskFile db.queued ⟨jid, tid, d⟩ }

/-- `RenderQueue.newJob` (`database.py` lines 53-80).  `uuid.uuid4().hex`
is modelled as the externally supplied fresh identifier `uid`.  The job
record is written to `jobs/<uid>.json`, then one task record per entry
of `tasks` is written to `tasks/queued/<uid>_<i padded>.json` with task
number `i` and that frame entry.  The Python function has no `return`
statement, so its value is `None`: the second component of the result
is the function's return value, always `none`. -/
def newJob (db : DB) (uid : String) (jobName : String) (priority : Int)
    (tasks : List String) : DB × Option String :=
  let jd : JobData := ⟨uid, jobName, priority, tasks⟩
  let db1 := { db with jobs := writeJobFile db.jobs ⟨uid, some jd⟩ }
  let db2 := tasks.enum.foldl
    (fun d p => writeQueuedTask d uid p.1 ⟨uid, p.1, p.2⟩) db1
  (db2, none)

/-- `RenderQueue.setPriority` (`database.py` lines 183-194).  The job
file is read first (`open` raises if it is missing, `json.load` raises
if it is corrupt — both modelled as `Except.error`).  An in-range
priority is written only if it differs from the stored one; an
out-of-range priority falls through the `if 0 <= priority <= 100` guard
and the function returns normally having done nothing. -/
def setPriority (db : DB) (jid : String) (priority : Int) : Except Unit DB :=
  match db.jobs.find? (fun g => g.fname == jid) with
  | none => .error ()
  | some jf =>
    match jf.data with
    | none => .error ()
    | some job =>
      if 0 ≤ priority ∧ priority ≤ 100 then
        if job.priority ≠ priority then
          .ok { db with jobs :=
            writeJobFile db.jobs ⟨jid, some { job with priority := priority }⟩ }
        else .ok db
      else .ok db

/-- `RenderQueue.requeueJob` (`database.py` lines 108-115): glob
`<db_root>/*/*/<jid>_*.json` and move every matched file whose path does
not contain the substring `queued` into `tasks/queued`.  Files already
in `tasks/queued` always contain that substring in their path, so they
are never moved.  `oswrapper.move` is modelled from the spec as atomic
relocation (spec section 4.2); moved files are appended to the queued
area in the scan order fixed by `globJobFiles`. -/
def requeueJob (db : DB) (jid : String) : DB :=
  let condC := fun tf : TaskFile =>
    tf.fJobID == jid && !(strContains (completedTaskPath db.root tf) "queued")
  let condF := fun tf : TaskFile =>
    tf.fJobID == jid && !(strContains (failedTaskPath db.root tf) "queued")
  let condW := fun (w : WorkerDir) (tf : TaskFile) =>
    tf.fJobID == jid && !(strContains (workerTaskPath db.root w.wname tf) "queued")
  { db with
    queued := db.queued ++ db.completed.filter condC ++ db.failed.filter condF
      ++ db.workers.flatMap (fun w => w.claimed.filter (condW w)),
    completed := db.completed.filter (fun tf => !(condC tf)),
    failed := db.failed.filter (fun tf => !(condF tf)),
    workers := db.workers.map (fun w =>
      { w with claimed := w.claimed.filter (fun tf => !(condW w tf)) }) }

/-- Loop body of `dequeueJob` (`database.py` lines 207-213): walk the
jobs in priority order; for the first job whose queued-task list is
non-empty, return that list's lowest-numbered element (the head after
sorting by `taskNo`); otherwise continue.  (A sort's result is empty
exactly when its input is, matching the source's `if tasks:` guard
before sorting.) -/
def dequeueLoop (db : DB) : List JobData → Option TaskData
  | [] => none
  | j :: rest =>
    match sortBy (fun a b => decide (a.taskNo ≤ b.taskNo))
        (getQueuedTasks db j.jobID) with
    | [] => dequeueLoop db rest
    | t :: _ => some t

/-- `RenderQueue.dequeueJob` (`database.py` lines 200-227): list all
jobs (propagating the read failure `getJobs` can raise), sort them by
priority descending (`sorted(..., key=itemgetter('priority'),
reverse=True)`), and scan with `dequeueLoop`. -/
def dequeueJob (db : DB) : Except Unit (Option TaskData) :=
  match getJobs db with
  | .error e => .error e
  | .ok jobs =>
    .ok (dequeueLoop db
      (sortBy (fun a b => decide (b.priority ≤ a.priority)) jobs))

/-- `RenderQueue.dequeueTask` (`database.py` lines 250-256): move the
queued task file `<jid>_<tid padded>.json` into worker `wid`'s claim
area.  `oswrapper.move` is modelled from the spec as the atomic
relocation of spec sections 4.2 and 5: it succeeds, removing the source
file and depositing it in the claim area, exactly when the source file
exists; if another caller already moved the file away the attempt fails
(`none` — the "lost the race" outcome of spec section 5). -/
def dequeueTask (db : DB) (jid : String) (tid : Nat) (wid : String) :
    Option DB :=
  match findQueuedTask db jid tid with
  | none => none
  | some tf =>
    let removed :=
      db.queued.filter (fun g => !(g.fJobID == jid && g.fTaskNo == tid))
    let ws :=
      if db.workers.any (fun w => w.wname == wid) then
        db.workers.map (fun w =>
          if w.wname == wid then { w with claimed := w.claimed ++ [tf] } else w)
      else db.workers ++ [⟨wid, none, [tf]⟩]
    some { db with queued := removed, workers := ws }

/-- A sequence of claim attempts on the same queued task, one per worker
in the list, each an atomic `dequeueTask` step (any interleaving of
concurrent claims is some such sequence, each step being atomic per spec
section 5).  Returns how many attempts succeeded. -/
def runClaims (db : DB) (jid : String) (tid : Nat) : List String → Nat
  | [] => 0
  | wid :: rest =>
    match dequeueTask db jid tid wid with
    | none => runClaims db jid tid rest
    | some db' => 1 + runClaims db' jid tid rest

/-- Outcomes of `combineTasks` other than success: the two validation
failures the source reports before returning `None` (`database.py`
lines 340-342 and 357-367), and the uncaught exception raised when a
listed task file is missing from `tasks/queued` (line 349). -/
inductive CombineError where
  | tooFewTasks
  | nonContiguousRange
  | missingTask
deriving DecidableEq

/-- Read loop of `combineTasks` (`database.py` lines 344-355): for each
listed task id, open its queued record (raising if absent), accumulate
its parsed frame numbers, keep the record's data when the id equals the
first listed id (a later iteration's assignment overwrites an earlier
one), and otherwise mark the file for deletion, in order.  Returns the
accumulated frames, the retained record data, and the ids marked for
deletion. -/
def combineReads (db : DB) (jid : String) (first : Nat) :
    List Nat → Except CombineError (List Int × Option TaskData × List Nat)
  | [] => .ok ([], none, [])
  | tid :: rest =>
    match findQueuedTask db jid tid with
    | none => .error .missingTask
    | some tf =>
      match combineReads db jid first rest with
      | .error e => .error e
      | .ok (frames, newdata, dels) =>
        if tid = first then
          .ok (numList tf.data.frames ++ frames,
            (match newdata with
             | some d => some d
             | none => some tf.data), dels)
        else
          .ok (numList tf.data.frames ++ frames, newdata, tid :: dels)

/-- `RenderQueue.combineTasks` (`database.py` lines 336-380).  The first
component of the result is the database after the call (unchanged on
every failure path, since all reads precede the contiguity check and
the check precedes every deletion and write); the second is the call's
outcome: the surviving task id on success, an error otherwise. -/
def combineTasks (db : DB) (jid : String) (taskIDs : List Nat) :
    DB × Except CombineError Nat :=
  if taskIDs.length < 2 then (db, .error .tooFewTasks)
  else
    match combineReads db jid (taskIDs.headD 0) taskIDs with
    | .error e => (db, .error e)
    | .ok (frames, newdata, dels) =>
      match contiguousRange frames with
      | none => (db, .error .nonContiguousRange)
      | some (a, b) =>
        let db1 := dels.foldl (fun d tid => removeQueuedTask d jid tid) db
        match newdata with
        | none => (db1, .error .missingTask)
        | some nd =>
          (writeQueuedTask db1 jid (taskIDs.headD 0)
            { nd with frames := rangeString a b },
           .ok (taskIDs.headD 0))

/-- The status-derivation rule as claim C10 words it, for comparison
with the inline chain in `getTasksLoop`: `Working` if the path contains
`workers`, else `Queued` if it contains `queued`, else `Done` (not
`Completed`) if it contains `completed`, else `Failed` if it contains
`failed`, else `Unknown`. -/
def claimC10Status (path : String) : String :=
  if strContains path "workers" then "Working"
  else if strContains path "queued" then "Queued"
  else if strContains path "completed" then "Done"
  else if strContains path "failed" then "Failed"
  else "Unknown"

/-- An empty database, as left by `RenderQueue.__init__`. -/
def dbEmpty : DB :=
  ⟨"/db", [], [], [], [], []⟩

/-- A database holding one job record with priority 50 and no tasks. -/
def dbOneJob : DB :=
  ⟨"/db", [⟨"j", some ⟨"j", "job", 50, []⟩⟩], [], [], [], []⟩

/-- A database holding one corrupt and one parseable job record, and
one corrupt and one parseable worker record. -/
def dbCorrupt : DB :=
  ⟨"/db", [⟨"a", none⟩, ⟨"b", some ⟨"b", "jobB", 50, []⟩⟩], [], [], [],
    [⟨"w1", none, []⟩, ⟨"w2", some ⟨"w2", "idle"⟩, []⟩]⟩

/-- A database holding one job with a single queued task. -/
def dbOneTask : DB :=
  ⟨"/db", [⟨"j", some ⟨"j", "job", 50, ["1-5"]⟩⟩],
    [⟨"j", 0, ⟨"j", 0, "1-5"⟩⟩], [], [], []⟩

/-- A database holding one job with two queued tasks whose frame ranges
are contiguous (`1-5` and `6-10`). -/
def dbTwoTasks : DB :=
  ⟨"/db", [⟨"j", some ⟨"j", "job", 50, ["1-5", "6-10"]⟩⟩],
    [⟨"j", 0, ⟨"j", 0, "1-5"⟩⟩, ⟨"j", 1, ⟨"j", 1, "6-10"⟩⟩], [], [], []⟩

/-- A database holding one job with two queued tasks whose frame ranges
leave a gap (`1-5` and `8-10`). -/
def dbGapTasks : DB :=
  ⟨"/db", [⟨"j", some ⟨"j", "job", 50, ["1-5", "8-10"]⟩⟩],
    [⟨"j", 0, ⟨"j", 0, "1-5"⟩⟩, ⟨"j", 1, ⟨"j", 1, "8-10"⟩⟩], [], [], []⟩

/-- A database where the highest-priority job (`a`, priority 90) has no
queued tasks while job `b` (priority 50) has two, stored out of task
order. -/
def dbDequeue : DB :=
  ⟨"/db", [⟨"a", some ⟨"a", "jobA", 90, []⟩⟩,
           ⟨"b", some ⟨"b", "jobB", 50, ["1-5", "6-10"]⟩⟩],
    [⟨"b", 1, ⟨"b", 1, "6-10"⟩⟩, ⟨"b", 0, ⟨"b", 0, "1-5"⟩⟩], [], [], []⟩

/-- A database with one job whose four tasks sit in all four state
areas: task 3 queued, task 0 completed, task 1 failed, task 2 claimed
by worker `w`. -/
def dbRequeue : DB :=
  ⟨"/db", [⟨"j", some ⟨"j", "job", 50, ["1-5", "6-10", "11-15", "16-20"]⟩⟩],
    [⟨"j", 3, ⟨"j", 3, "16-20"⟩⟩],
    [⟨"j", 0, ⟨"j", 0, "1-5"⟩⟩],
    [⟨"j", 1, ⟨"j", 1, "6-10"⟩⟩],
    [⟨"w", some ⟨"w", "rendering"⟩, [⟨"j", 2, ⟨"j", 2, "11-15"⟩⟩]⟩]⟩

/-! Generic facts about the stable insertion sort used to model
Python's `sorted`. -/

theorem insertSorted_perm {α : Type} (le : α → α → Bool) (a : α)
    (l : List α) : (insertSorted le a l).Perm (a :: l) := by
  induction l with
  | nil => simp [insertSorted]
  | cons b t ih =>
    simp only [insertSorted]
    split
    · exact (ih.cons b).trans (List.Perm.swap a b t)
    · exact List.Perm.refl _

theorem mem_insertSorted {α : Type} {le : α → α → Bool} {a x : α}
    {l : List α} : x ∈ insertSorted le a l ↔ x = a ∨ x ∈ l := by
  rw [(insertSorted_perm le a l).mem_iff, List.mem_cons]

theorem insertSorted_pairwise {α : Type} {le : α → α → Bool}
    (htrans : ∀ a b c, le a b = true → le b c = true → le a c = true)
    (htotal : ∀ a b, le a b = true ∨ le b a = true) (a : α) {l : List α}
    (h : l.Pairwise (fun x y => le x y = true)) :
    (insertSorted le a l).Pairwise (fun x y => le x y = true) := by
  induction l with
  | nil => simp [insertSorted]
  | cons b t ih =>
    rw [List.pairwise_cons] at h
    obtain ⟨hb, ht⟩ := h
    simp only [insertSorted]
    split
    · rename_i hle
      rw [List.pairwise_cons]
      refine ⟨fun x hx => ?_, ih ht⟩
      rcases mem_insertSorted.mp hx with rfl | hx
      · exact hle
      · exact hb x hx
    · rename_i hnle
      have hab : le a b = true := by
        rcases htotal a b with h1 | h1
        · exact h1
        · exact absurd h1 hnle
      rw [List.pairwise_cons]
      refine ⟨fun x hx => ?_, List.pairwise_cons.mpr ⟨hb, ht⟩⟩
      rcases List.mem_cons.mp hx with rfl | hx
      · exact hab
      · exact htrans a b x hab (hb x hx)

theorem sortBy_go_perm {α : Type} (le : α → α → Bool) :
    ∀ (l acc : List α),
      (l.foldl (fun acc a => insertSorted le a acc) acc).Perm (acc ++ l)
  | [], acc => by simp
  | a :: t, acc => by
    have h1 := sortBy_go_perm le t (insertSorted le a acc)
    refine (List.foldl_cons _ _ ▸ h1).trans ?_
    have h2 : (insertSorted le a acc ++ t).Perm ((a :: acc) ++ t) :=
      (insertSorted_perm le a acc).append_right t
    exact h2.trans (List.perm_middle.symm)

theorem sortBy_perm {α : Type} (le : α → α → Bool) (l : List α) :
    (sortBy le l).Perm l := by
  simpa using sortBy_go_perm le l []

theorem mem_sortBy {α : Type} {le : α → α → Bool} {x : α} {l : List α} :
    x ∈ sortBy le l ↔ x ∈ l :=
  (sortBy_perm le l).mem_iff

theorem sortBy_eq_nil_iff {α : Type} {le : α → α → Bool} {l : List α} :
    sortBy le l = [] ↔ l = [] := by
  constructor
  · intro h
    have := (sortBy_perm le l).length_eq
    rw [h] at this
    exact List.length_eq_zero.mp this.symm
  · intro h
    subst h
    rfl

theorem sortBy_go_pairwise {α : Type} {le : α → α → Bool}
    (htrans : ∀ a b c, le a b = true → le b c = true → le a c = true)
    (htotal : ∀ a b, le a b = true ∨ le b a = true) :
    ∀ (l acc : List α), acc.Pairwise (fun x y => le x y = true) →
      (l.foldl (fun acc a => insertSorted le a acc) acc).Pairwise
        (fun x y => le x y = true)
  | [], _, hacc => hacc
  | a :: t, acc, hacc => by
    rw [List.foldl_cons]
    exact sortBy_go_pairwise htrans htotal t _
      (insertSorted_pairwise htrans htotal a hacc)

theorem sortBy_pairwise {α : Type} {le : α → α → Bool}
    (htrans : ∀ a b c, le a b = true → le b c = true → le a c = true)
    (htotal : ∀ a b, le a b = true ∨ le b a = true) (l : List α) :
    (sortBy le l).Pairwise (fun x y => le x y = true) :=
  sortBy_go_pairwise htrans htotal l [] (List.Pairwise.nil)

/-! Facts about listing operations. -/

theorem getWorkersLoop_eq (ws : List WorkerDir) :
    getWorkersLoop ws = ws.filterMap (fun w => w.info) := by
  induction ws with
  | nil => rfl
  | cons w rest ih =>
    cases h : w.info <;>
      simp [getWorkersLoop, h, ih, List.filterMap_cons]

theorem getJobsLoop_error (l : List JobFile)
    (h : ∃ jf ∈ l, jf.data = none) : getJobsLoop l = .error () := by
  induction l with
  | nil => simp at h
  | cons jf rest ih =>
    obtain ⟨g, hg, hgd⟩ := h
    rcases List.mem_cons.mp hg with rfl | hg
    · simp only [getJobsLoop, hgd]
    · cases hd : jf.data with
      | none => simp only [getJobsLoop, hd]
      | some jd => simp only [getJobsLoop, hd, ih ⟨g, hg, hgd⟩]

/-- C9 (counterexample): the claim says a corrupt job record is skipped
with a logged warning and the remaining job records are still returned.
In `dbCorrupt` the job area holds one corrupt record (`a`) and one
parseable record (`b`), yet `getJobs` aborts with an error instead of
returning the record of `b`: unlike `getWorkers`, `getJobs` has no
try/except around `json.load`. -/
theorem getJobs_corrupt_aborts : getJobs dbCorrupt = .error () := rfl

/-- C9 (amended): `getWorkers` skips corrupt worker records and returns
exactly the parseable ones, but `getJobs` aborts with an error as soon
as any job record in the listing is corrupt. -/
theorem listing_corrupt_behavior (db : DB) :
    getWorkers db = db.workers.filterMap (fun w => w.info)
    ∧ ((∃ jf ∈ db.jobs, jf.data = none) → getJobs db = .error ()) :=
  ⟨getWorkersLoop_eq db.workers, fun h => getJobsLoop_error db.jobs h⟩

/-- C9 (witness): on `dbCorrupt`, `getWorkers` returns just the
parseable worker record while `getJobs` aborts. -/
theorem listing_corrupt_behavior_witness :
    getWorkers dbCorrupt = [⟨"w2", "idle"⟩]
    ∧ getJobs dbCorrupt = .error () := by
  constructor
  · rw [(listing_corrupt_behavior dbCorrupt).1]
    rfl
  · exact (listing_corrupt_behavior dbCorrupt).2
      ⟨⟨"a", none⟩, by decide, rfl⟩

/-- C10: every record returned by `getTasks` is the corresponding
matched record augmented with a status derived purely from the record's
path by substring matching, tested in the precedence order stated by
the claim (`claimC10Status`): `Working` if the path contains `workers`,
else `Queued` if it contains `queued`, else `Done` — not `Completed` —
if it contains `completed`, else `Failed` if it contains `failed`, else
`Unknown`. -/
theorem getTasks_status_from_path (db : DB) (jid : String) :
    getTasks db jid
      = (globJobFiles db jid).map (fun pd => (pd.2, claimC10Status pd.1)) := by
  show getTasksLoop (globJobFiles db jid) = _
  generalize globJobFiles db jid = l
  induction l with
  | nil => rfl
  | cons pd rest ih =>
    obtain ⟨path, d⟩ := pd
    simp only [getTasksLoop, List.map_cons, ih, claimC10Status]

/-- C7 (counterexample): the claim says `setPriority` fails with
`InvalidArgument` for every out-of-range value.  On `dbOneJob` (one job
record, priority 50) the out-of-range value 101 does not fail: the
function reads the record, skips the `0 <= priority <= 100` guard, and
returns normally, leaving the database untouched. -/
theorem setPriority_out_of_range_no_error :
    setPriority dbOneJob "j" 101 = .ok dbOneJob := rfl

/-- C7 (amended): provided the job record exists and parses,
`setPriority` silently ignores an out-of-range value — no error and no
write — and does not fail for any in-range value. -/
theorem setPriority_range_behavior (db : DB) (jid : String) (p : Int)
    (jf : JobFile) (job : JobData)
    (hfind : db.jobs.find? (fun g => g.fname == jid) = some jf)
    (hdata : jf.data = some job) :
    (¬(0 ≤ p ∧ p ≤ 100) → setPriority db jid p = .ok db)
    ∧ ((0 ≤ p ∧ p ≤ 100) → ∃ db', setPriority db jid p = .ok db') := by
  constructor
  · intro h
    unfold setPriority
    rw [hfind]
    simp only [hdata]
    rw [if_neg h]
  · intro h
    unfold setPriority
    rw [hfind]
    simp only [hdata]
    rw [if_pos h]
    by_cases hc : job.priority ≠ p
    · rw [if_pos hc]
      exact ⟨_, rfl⟩
    · rw [if_neg hc]
      exact ⟨db, rfl⟩

/-- C7 (witness): on `dbOneJob`, the out-of-range value 101 produces no
error and no change, and the in-range value 60 succeeds. -/
theorem setPriority_range_behavior_witness :
    setPriority dbOneJob "j" 101 = .ok dbOneJob
    ∧ ∃ db', setPriority dbOneJob "j" 60 = .ok db' := by
  constructor
  · exact (setPriority_range_behavior dbOneJob "j" 101 _ _ rfl rfl).1
      (by decide)
  · exact (setPriority_range_behavior dbOneJob "j" 60 _ _ rfl rfl).2
      (by decide)

/-- C5 (counterexample): the claim says `newJob` returns the generated
job identifier to the caller.  The Python function body has no `return`
statement, so the call returns `None`: here, creating a job with
generated identifier `u1` returns `none`, not the identifier. -/
theorem newJob_returns_none_counterexample :
    (newJob dbEmpty "u1" "jobA" 50 ["1-5"]).2 = none
    ∧ (newJob dbEmpty "u1" "jobA" 50 ["1-5"]).2 ≠ some "u1" := by
  exact ⟨rfl, by decide⟩

theorem writeQueuedTask_fold_jobs (uid : String)
    (files : List (Nat × String)) :
    ∀ d : DB,
      (files.foldl (fun d p => writeQueuedTask d uid p.1 ⟨uid, p.1, p.2⟩)
        d).jobs = d.jobs := by
  induction files with
  | nil => intro d; rfl
  | cons f rest ih =>
    intro d
    rw [List.foldl_cons]
    exact ih _

/-- C5 (amended): `newJob` with a freshly generated identifier `uid`
(modelling `uuid.uuid4().hex`, assumed to collide with no existing job
record) persists a new job record carrying `uid` as its identifier —
but the call returns `None`, not the identifier. -/
theorem newJob_persists_fresh_id (db : DB) (uid nm : String) (pr : Int)
    (ts : List String) (hfresh : ∀ jf ∈ db.jobs, jf.fname ≠ uid) :
    (newJob db uid nm pr ts).1.jobs
      = db.jobs ++ [⟨uid, some ⟨uid, nm, pr, ts⟩⟩]
    ∧ (newJob db uid nm pr ts).2 = none := by
  have hany : db.jobs.any (fun g => g.fname == uid) = false := by
    rw [Bool.eq_false_iff]
    intro h
    obtain ⟨g, hg, hgu⟩ := List.any_eq_true.mp h
    exact hfresh g hg (by simpa using hgu)
  constructor
  · show (List.foldl (fun d p => writeQueuedTask d uid p.1 ⟨uid, p.1, p.2⟩)
        { db with jobs := writeJobFile db.jobs ⟨uid, some ⟨uid, nm, pr, ts⟩⟩ }
        ts.enum).jobs = _
    rw [writeQueuedTask_fold_jobs]
    show writeJobFile db.jobs ⟨uid, some ⟨uid, nm, pr, ts⟩⟩ = _
    rw [writeJobFile, hany]
    simp
  · rfl

/-- C5 (witness): creating a job in the empty database with fresh
identifier `u1` persists a job record with that identifier and returns
`none`. -/
theorem newJob_persists_fresh_id_witness :
    (newJob dbEmpty "u1" "jobA" 50 ["1-5"]).1.jobs
      = [⟨"u1", some ⟨"u1", "jobA", 50, ["1-5"]⟩⟩]
    ∧ (newJob dbEmpty "u1" "jobA" 50 ["1-5"]).2 = none := by
  have h := newJob_persists_fresh_id dbEmpty "u1" "jobA" 50 ["1-5"]
    (by decide)
  exact ⟨by rw [h.1]; rfl, h.2⟩

theorem dequeueTask_none_of_countP_zero (db : DB) (jid : String)
    (tid : Nat) (wid : String)
    (h : db.queued.countP
      (fun tf => tf.fJobID == jid && tf.fTaskNo == tid) = 0) :
    dequeueTask db jid tid wid = none := by
  have hfind : findQueuedTask db jid tid = none := by
    rw [findQueuedTask, List.find?_eq_none]
    intro x hx
    exact List.countP_eq_zero.mp h x hx
  rw [dequeueTask, hfind]

theorem dequeueTask_some_countP_zero (db db' : DB) (jid : String)
    (tid : Nat) (wid : String)
    (h : dequeueTask db jid tid wid = some db') :
    db'.queued.countP
      (fun tf => tf.fJobID == jid && tf.fTaskNo == tid) = 0 := by
  rw [dequeueTask] at h
  cases hfind : findQueuedTask db jid tid with
  | none => rw [hfind] at h; cases h
  | some tf =>
    rw [hfind] at h
    cases h
    rw [List.countP_eq_zero]
    intro a ha
    have := (List.mem_filter.mp ha).2
    simp only [Bool.not_eq_true'] at this
    simp [this]

theorem runClaims_zero_of_countP_zero (jid : String) (tid : Nat) :
    ∀ (ws : List String) (db : DB),
      db.queued.countP
        (fun tf => tf.fJobID == jid && tf.fTaskNo == tid) = 0 →
      runClaims db jid tid ws = 0 := by
  intro ws
  induction ws with
  | nil => intro db _; rfl
  | cons wid rest ih =>
    intro db h
    rw [runClaims, dequeueTask_none_of_countP_zero db jid tid wid h]
    exact ih db h

/-- C2: any interleaving of M concurrent claim attempts for the same
queued task is a sequence of atomic `dequeueTask` steps (spec section
5), one per caller; when at most one queued record for that task
exists, at most one of the attempts succeeds — every other caller loses
the race and receives nothing. -/
theorem dequeueTask_at_most_one_claim (db : DB) (jid : String)
    (tid : Nat) (ws : List String)
    (h : db.queued.countP
      (fun tf => tf.fJobID == jid && tf.fTaskNo == tid) ≤ 1) :
    runClaims db jid tid ws ≤ 1 := by
  induction ws generalizing db with
  | nil => exact Nat.zero_le 1
  | cons wid rest ih =>
    rw [runClaims]
    cases heq : dequeueTask db jid tid wid with
    | none =>
      show runClaims db jid tid rest ≤ 1
      exact ih db h
    | some db' =>
      show 1 + runClaims db' jid tid rest ≤ 1
      have h0 := dequeueTask_some_countP_zero db db' jid tid wid heq
      rw [runClaims_zero_of_countP_zero jid tid rest db' h0]

/-- C2 (witness): three workers race for the single queued task of
`dbOneTask`; at most one claim succeeds. -/
theorem dequeueTask_at_most_one_claim_witness :
    dbOneTask.queued.countP
      (fun tf => tf.fJobID == "j" && tf.fTaskNo == 0) = 1
    ∧ runClaims dbOneTask "j" 0 ["w1", "w2", "w3"] ≤ 1 :=
  ⟨by decide,
   dequeueTask_at_most_one_claim dbOneTask "j" 0 ["w1", "w2", "w3"]
     (by decide)⟩

theorem getTasksLoop_map_fst (l : List (String × TaskData)) :
    (getTasksLoop l).map (fun r => r.1) = l.map (fun pd => pd.2) := by
  induction l with
  | nil => rfl
  | cons pd rest ih =>
    obtain ⟨path, d⟩ := pd
    simp only [getTasksLoop, List.map_cons, ih]

theorem writeQueuedTask_fold (uid : String) :
    ∀ (files : List (Nat × String)) (db : DB),
      (files.map Prod.fst).Nodup →
      (∀ tf ∈ db.queued, ∀ p ∈ files,
        ¬(tf.fJobID = uid ∧ tf.fTaskNo = p.1)) →
      files.foldl (fun d p => writeQueuedTask d uid p.1 ⟨uid, p.1, p.2⟩) db
        = { db with queued :=
            db.queued ++ files.map (fun p => ⟨uid, p.1, ⟨uid, p.1, p.2⟩⟩) }
  | [], db => by intro _ _; simp
  | f :: rest, db => by
    intro hn h
    rw [List.map_cons, List.nodup_cons] at hn
    have hany : db.queued.any
        (fun g => g.fJobID == uid && g.fTaskNo == f.1) = false := by
      rw [Bool.eq_false_iff]
      intro hx
      obtain ⟨g, hg, hgu⟩ := List.any_eq_true.mp hx
      rw [Bool.and_eq_true, beq_iff_eq, beq_iff_eq] at hgu
      exact h g hg f (List.mem_cons_self f rest) hgu
    have hstep : writeQueuedTask db uid f.1 ⟨uid, f.1, f.2⟩
        = { db with queued := db.queued ++ [⟨uid, f.1, ⟨uid, f.1, f.2⟩⟩] } := by
      rw [writeQueuedTask, writeTaskFile]
      simp only [hany]
      rw [if_neg (by simp)]
    rw [List.foldl_cons, hstep]
    rw [writeQueuedTask_fold uid rest _ hn.2 ?_]
    · simp
    · intro tf htf p hp
      rcases List.mem_append.mp htf with htf | htf
      · exact h tf htf p (List.mem_cons_of_mem f hp)
      · rcases List.mem_singleton.mp htf with rfl
        rintro ⟨-, hno⟩
        exact hn.1 (by simpa [hno.symm] using List.mem_map_of_mem Prod.fst hp)

/-- C6: creating a job with identifier `uid` fresh for the whole
database and N frame-range entries appends exactly N task records to
the `queued` area, numbered 0..N-1, each carrying `uid` and the
corresponding frame entry, and `getTasks` for that job then returns
exactly those N records, with distinct task numbers. -/
theorem newJob_creates_n_queued_tasks (db : DB) (uid nm : String)
    (pr : Int) (ts : List String)
    (hq : ∀ tf ∈ db.queued, tf.fJobID ≠ uid)
    (hc : ∀ tf ∈ db.completed, tf.fJobID ≠ uid)
    (hf : ∀ tf ∈ db.failed, tf.fJobID ≠ uid)
    (hw : ∀ w ∈ db.workers, ∀ tf ∈ w.claimed, tf.fJobID ≠ uid) :
    (newJob db uid nm pr ts).1.queued
      = db.queued ++ ts.enum.map (fun p => ⟨uid, p.1, ⟨uid, p.1, p.2⟩⟩)
    ∧ (getTasks (newJob db uid nm pr ts).1 uid).map (fun r => r.1)
      = ts.enum.map (fun p => ⟨uid, p.1, p.2⟩)
    ∧ (getTasks (newJob db uid nm pr ts).1 uid).length = ts.length
    ∧ ((getTasks (newJob db uid nm pr ts).1 uid).map
        (fun r => r.1.taskNo)).Nodup := by
  have hnodup : (ts.enum.map Prod.fst).Nodup := by
    rw [List.enum_map_fst]
    exact List.nodup_range ts.length
  have hfold := writeQueuedTask_fold uid ts.enum
    { db with jobs := writeJobFile db.jobs ⟨uid, some ⟨uid, nm, pr, ts⟩⟩ }
    hnodup (fun tf htf p _ hcontra => hq tf htf hcontra.1)
  have hdb1 : (newJob db uid nm pr ts).1
      = { db with
          jobs := writeJobFile db.jobs ⟨uid, some ⟨uid, nm, pr, ts⟩⟩,
          queued := db.queued
            ++ ts.enum.map (fun p => ⟨uid, p.1, ⟨uid, p.1, p.2⟩⟩) } := by
    show ts.enum.foldl _ _ = _
    rw [hfold]
  have hglob : globJobFiles (newJob db uid nm pr ts).1 uid
      = (ts.enum.map (fun p => (⟨uid, p.1, ⟨uid, p.1, p.2⟩⟩ : TaskFile))).map
          (fun tf => (queuedTaskPath db.root tf, tf.data)) := by
    rw [hdb1, globJobFiles]
    have h1 : db.queued.filter (fun tf => tf.fJobID == uid) = [] :=
      List.filter_eq_nil_iff.mpr (fun tf htf => by simp [hq tf htf])
    have h2 : db.completed.filter (fun tf => tf.fJobID == uid) = [] :=
      List.filter_eq_nil_iff.mpr (fun tf htf => by simp [hc tf htf])
    have h3 : db.failed.filter (fun tf => tf.fJobID == uid) = [] :=
      List.filter_eq_nil_iff.mpr (fun tf htf => by simp [hf tf htf])
    have h4 : (ts.enum.map
        (fun p => (⟨uid, p.1, ⟨uid, p.1, p.2⟩⟩ : TaskFile))).filter
          (fun tf => tf.fJobID == uid)
        = ts.enum.map (fun p => ⟨uid, p.1, ⟨uid, p.1, p.2⟩⟩) :=
      List.filter_eq_self.mpr (fun tf htf => by
        obtain ⟨p, -, rfl⟩ := List.mem_map.mp htf
        simp)
    have h5 : db.workers.flatMap (fun w =>
        (w.claimed.filter (fun tf => tf.fJobID == uid)).map
          (fun tf => (workerTaskPath db.root w.wname tf, tf.data))) = [] :=
      List.flatMap_eq_nil_iff.mpr (fun w hwmem => by
        rw [List.filter_eq_nil_iff.mpr
          (fun tf htf => by simp [hw w hwmem tf htf])]
        rfl)
    simp only [List.filter_append, h1, h2, h3, h4, h5]
    simp
  have hmap : (getTasks (newJob db uid nm pr ts).1 uid).map (fun r => r.1)
      = ts.enum.map (fun p => ⟨uid, p.1, p.2⟩) := by
    show (getTasksLoop _).map _ = _
    rw [getTasksLoop_map_fst, hglob, List.map_map, List.map_map]
    rfl
  refine ⟨by rw [hdb1], hmap, ?_, ?_⟩
  · have := congrArg List.length hmap
    simpa [List.enum_length] using this
  · have : (getTasks (newJob db uid nm pr ts).1 uid).map
        (fun r => r.1.taskNo)
        = ts.enum.map Prod.fst := by
      calc (getTasks (newJob db uid nm pr ts).1 uid).map
            (fun r => r.1.taskNo)
          = ((getTasks (newJob db uid nm pr ts).1 uid).map
              (fun r => r.1)).map (fun d => d.taskNo) := by
            rw [List.map_map]; rfl
        _ = (ts.enum.map (fun p => (⟨uid, p.1, p.2⟩ : TaskData))).map
              (fun d => d.taskNo) := by rw [hmap]
        _ = ts.enum.map Prod.fst := by rw [List.map_map]; rfl
    rw [this, List.enum_map_fst]
    exact List.nodup_range ts.length

/-- C6 (witness): creating a job with two frame entries in the empty
database yields two queued task records numbered 0 and 1, and
`getTasks` returns exactly those two records. -/
theorem newJob_creates_n_queued_tasks_witness :
    (newJob dbEmpty "u1" "jobA" 50 ["1-5", "6-10"]).1.queued
      = [⟨"u1", 0, ⟨"u1", 0, "1-5"⟩⟩, ⟨"u1", 1, ⟨"u1", 1, "6-10"⟩⟩]
    ∧ (getTasks (newJob dbEmpty "u1" "jobA" 50 ["1-5", "6-10"]).1
        "u1").length = 2 := by
  have h := newJob_creates_n_queued_tasks dbEmpty "u1" "jobA" 50
    ["1-5", "6-10"] (by decide) (by decide) (by decide) (by decide)
  exact ⟨by rw [h.1]; rfl, by rw [h.2.2.1]; rfl⟩

theorem filter_not_of_filter_eq_nil {α : Type} {p : α → Bool}
    {l : List α} (h : l.filter p = []) :
    l.filter (fun a => !(p a)) = l :=
  List.filter_eq_self.mpr (fun a ha => by
    have := List.filter_eq_nil_iff.mp h a ha
    simpa using this)

theorem requeueJob_eq_self (db : DB) (jid : String)
    (h1 : db.completed.filter (fun tf => tf.fJobID == jid
      && !(strContains (completedTaskPath db.root tf) "queued")) = [])
    (h2 : db.failed.filter (fun tf => tf.fJobID == jid
      && !(strContains (failedTaskPath db.root tf) "queued")) = [])
    (h3 : ∀ w ∈ db.workers, w.claimed.filter (fun tf => tf.fJobID == jid
      && !(strContains (workerTaskPath db.root w.wname tf) "queued")) = []) :
    requeueJob db jid = db := by
  obtain ⟨r, j, q, c, f, ws⟩ := db
  have h4 : ws.flatMap (fun w => w.claimed.filter
      (fun tf => tf.fJobID == jid
        && !(strContains (workerTaskPath r w.wname tf) "queued"))) = [] :=
    List.flatMap_eq_nil_iff.mpr h3
  have heach : ∀ w ∈ ws,
      ({ w with
          claimed := w.claimed.filter (fun tf =>
            !(tf.fJobID == jid &&
              !(strContains (workerTaskPath r w.wname tf) "queued"))) } :
        WorkerDir) = w := by
    intro w hwmem
    rw [filter_not_of_filter_eq_nil (h3 w hwmem)]
  simp only [requeueJob]
  rw [h1, h2, h4, List.append_nil, List.append_nil, List.append_nil,
    filter_not_of_filter_eq_nil h1, filter_not_of_filter_eq_nil h2]
  congr 1
  rw [List.map_congr_left heach, List.map_id']

/-- C8: when no file path involved contains the substring `queued`
spuriously (true of any deployment whose root path and worker names
avoid that substring — job ids and worker ids are uuid hex), a
`requeueJob` call moves every task record of the job out of the
`completed`, `failed` and worker claim areas into `queued`, leaves the
already-queued records in place, and a second call changes nothing. -/
theorem requeueJob_requeues_all_idempotent (db : DB) (jid : String)
    (hc : ∀ tf ∈ db.completed,
      strContains (completedTaskPath db.root tf) "queued" = false)
    (hf : ∀ tf ∈ db.failed,
      strContains (failedTaskPath db.root tf) "queued" = false)
    (hw : ∀ w ∈ db.workers, ∀ tf ∈ w.claimed,
      strContains (workerTaskPath db.root w.wname tf) "queued" = false) :
    (∀ tf ∈ db.queued, tf ∈ (requeueJob db jid).queued)
    ∧ (∀ tf ∈ db.completed, tf.fJobID = jid →
        tf ∈ (requeueJob db jid).queued)
    ∧ (∀ tf ∈ db.failed, tf.fJobID = jid →
        tf ∈ (requeueJob db jid).queued)
    ∧ (∀ w ∈ db.workers, ∀ tf ∈ w.claimed, tf.fJobID = jid →
        tf ∈ (requeueJob db jid).queued)
    ∧ (∀ tf ∈ (requeueJob db jid).completed, tf.fJobID ≠ jid)
    ∧ (∀ tf ∈ (requeueJob db jid).failed, tf.fJobID ≠ jid)
    ∧ (∀ w ∈ (requeueJob db jid).workers, ∀ tf ∈ w.claimed,
        tf.fJobID ≠ jid)
    ∧ requeueJob (requeueJob db jid) jid = requeueJob db jid := by
  refine ⟨?_, ?_, ?_, ?_, ?_, ?_, ?_, ?_⟩
  · intro tf htf
    simp only [requeueJob, List.mem_append]
    exact Or.inl (Or.inl (Or.inl htf))
  · intro tf htf hid
    simp only [requeueJob, List.mem_append]
    refine Or.inl (Or.inl (Or.inr ?_))
    rw [List.mem_filter]
    exact ⟨htf, by simp [hid, hc tf htf]⟩
  · intro tf htf hid
    simp only [requeueJob, List.mem_append]
    refine Or.inl (Or.inr ?_)
    rw [List.mem_filter]
    exact ⟨htf, by simp [hid, hf tf htf]⟩
  · intro w hwmem tf htf hid
    simp only [requeueJob, List.mem_append]
    refine Or.inr ?_
    rw [List.mem_flatMap]
    refine ⟨w, hwmem, ?_⟩
    rw [List.mem_filter]
    exact ⟨htf, by simp [hid, hw w hwmem tf htf]⟩
  · intro tf htf
    simp only [requeueJob] at htf
    have h2 := (List.mem_filter.mp htf).2
    have h1 := (List.mem_filter.mp htf).1
    intro hid
    rw [hc tf h1] at h2
    simp [hid] at h2
  · intro tf htf
    simp only [requeueJob] at htf
    have h2 := (List.mem_filter.mp htf).2
    have h1 := (List.mem_filter.mp htf).1
    intro hid
    rw [hf tf h1] at h2
    simp [hid] at h2
  · intro w' hw' tf htf
    simp only [requeueJob, List.mem_map] at hw'
    obtain ⟨w, hwmem, rfl⟩ := hw'
    have h2 := (List.mem_filter.mp htf).2
    have h1 := (List.mem_filter.mp htf).1
    intro hid
    rw [hw w hwmem tf h1] at h2
    simp [hid] at h2
  · refine requeueJob_eq_self (requeueJob db jid) jid ?_ ?_ ?_
    · show (db.completed.filter (fun tf => !(tf.fJobID == jid
        && !(strContains (completedTaskPath db.root tf) "queued")))).filter
          (fun tf => tf.fJobID == jid
            && !(strContains (completedTaskPath db.root tf) "queued")) = []
      rw [List.filter_filter]
      simp
    · show (db.failed.filter (fun tf => !(tf.fJobID == jid
        && !(strContains (failedTaskPath db.root tf) "queued")))).filter
          (fun tf => tf.fJobID == jid
            && !(strContains (failedTaskPath db.root tf) "queued")) = []
      rw [List.filter_filter]
      simp
    · intro w' hw'
      simp only [requeueJob, List.mem_map] at hw'
      obtain ⟨w, hwmem, rfl⟩ := hw'
      show ((w.claimed.filter (fun tf => !(tf.fJobID == jid
        && !(strContains (workerTaskPath db.root w.wname tf) "queued")))).filter
          (fun tf => tf.fJobID == jid
            && !(strContains (workerTaskPath db.root w.wname tf) "queued"))) = []
      rw [List.filter_filter]
      simp

/-- C8 (witness): on `dbRequeue` (root `/db`, one completed, one
failed, one claimed and one queued task of job `j`), requeueing moves
the completed task 0 into the queued area and a second call is a
no-op. -/
theorem requeueJob_requeues_all_idempotent_witness :
    (⟨"j", 0, ⟨"j", 0, "1-5"⟩⟩ : TaskFile) ∈ (requeueJob dbRequeue "j").queued
    ∧ requeueJob (requeueJob dbRequeue "j") "j" = requeueJob dbRequeue "j" := by
  have h := requeueJob_requeues_all_idempotent dbRequeue "j"
    (by decide) (by decide) (by decide)
  exact ⟨h.2.1 ⟨"j", 0, ⟨"j", 0, "1-5"⟩⟩ (by decide) rfl,
    h.2.2.2.2.2.2.2⟩

theorem getJobsLoop_ok (l : List JobFile)
    (h : ∀ jf ∈ l, jf.data ≠ none) :
    ∃ L, getJobsLoop l = .ok L
      ∧ ∀ j, j ∈ L ↔ ∃ jf ∈ l, jf.data = some j := by
  induction l with
  | nil => exact ⟨[], rfl, by simp⟩
  | cons jf rest ih =>
    obtain ⟨L, hL, hiff⟩ := ih (fun g hg => h g (List.mem_cons_of_mem jf hg))
    cases hd : jf.data with
    | none => exact absurd hd (h jf (List.mem_cons_self jf rest))
    | some jd =>
      refine ⟨jd :: L, ?_, ?_⟩
      · simp only [getJobsLoop, hd, hL]
      · intro j
        constructor
        · intro hj
          rcases List.mem_cons.mp hj with rfl | hj
          · exact ⟨jf, List.mem_cons_self jf rest, hd⟩
          · obtain ⟨g, hg, hgd⟩ := (hiff j).mp hj
            exact ⟨g, List.mem_cons_of_mem jf hg, hgd⟩
        · rintro ⟨g, hg, hgd⟩
          rcases List.mem_cons.mp hg with rfl | hg
          · rw [hd] at hgd
            exact List.mem_cons.mpr (Or.inl (Option.some.inj hgd).symm)
          · exact List.mem_cons.mpr (Or.inr ((hiff j).mpr ⟨g, hg, hgd⟩))

theorem dequeueLoop_none_iff (db : DB) :
    ∀ l : List JobData, dequeueLoop db l = none ↔
      ∀ j ∈ l, getQueuedTasks db j.jobID = [] := by
  intro l
  induction l with
  | nil => simp [dequeueLoop]
  | cons j rest ih =>
    cases hs : sortBy (fun a b => decide (a.taskNo ≤ b.taskNo))
        (getQueuedTasks db j.jobID) with
    | nil =>
      have htasks : getQueuedTasks db j.jobID = [] :=
        sortBy_eq_nil_iff.mp hs
      simp only [dequeueLoop, hs]
      constructor
      · intro h j' hj'
        rcases List.mem_cons.mp hj' with rfl | hj'
        · exact htasks
        · exact (ih.mp h) j' hj'
      · intro h
        exact ih.mpr (fun j' hj' => h j' (List.mem_cons_of_mem j hj'))
    | cons t ts =>
      simp only [dequeueLoop, hs]
      constructor
      · intro h
        cases h
      · intro h
        have htasks := h j (List.mem_cons_self j rest)
        rw [htasks] at hs
        cases hs

theorem dequeueLoop_some (db : DB) :
    ∀ (l : List JobData) (t : TaskData), dequeueLoop db l = some t →
      ∃ l1 j l2, l = l1 ++ j :: l2
        ∧ (∀ j' ∈ l1, getQueuedTasks db j'.jobID = [])
        ∧ t ∈ getQueuedTasks db j.jobID
        ∧ ∀ t' ∈ getQueuedTasks db j.jobID, t.taskNo ≤ t'.taskNo := by
  intro l
  induction l with
  | nil => intro t h; cases h
  | cons j rest ih =>
    intro t h
    cases hs : sortBy (fun a b => decide (a.taskNo ≤ b.taskNo))
        (getQueuedTasks db j.jobID) with
    | nil =>
      have htasks : getQueuedTasks db j.jobID = [] :=
        sortBy_eq_nil_iff.mp hs
      simp only [dequeueLoop, hs] at h
      obtain ⟨l1, j0, l2, hsplit, hpre, hmem, hmin⟩ := ih t h
      refine ⟨j :: l1, j0, l2, by rw [hsplit]; rfl, ?_, hmem, hmin⟩
      intro j' hj'
      rcases List.mem_cons.mp hj' with rfl | hj'
      · exact htasks
      · exact hpre j' hj'
    | cons t0 ts =>
      simp only [dequeueLoop, hs, Option.some.injEq] at h
      subst h
      refine ⟨[], j, rest, rfl, by simp, ?_, ?_⟩
      · have hmem0 : t0 ∈ sortBy (fun a b => decide (a.taskNo ≤ b.taskNo))
            (getQueuedTasks db j.jobID) := by
          rw [hs]
          exact List.mem_cons_self t0 ts
        exact mem_sortBy.mp hmem0
      · intro t' ht'
        have hp := @sortBy_pairwise TaskData
          (fun a b : TaskData => decide (a.taskNo ≤ b.taskNo))
          (fun a b c hab hbc => by
            rw [decide_eq_true_eq] at hab hbc ⊢
            exact Nat.le_trans hab hbc)
          (fun a b => by
            rw [decide_eq_true_eq, decide_eq_true_eq]
            exact Nat.le_total a.taskNo b.taskNo)
          (getQueuedTasks db j.jobID)
        rw [hs, List.pairwise_cons] at hp
        have ht'' : t' ∈ t0 :: ts := by
          rw [← hs]
          exact mem_sortBy.mpr ht'
        rcases List.mem_cons.mp ht'' with rfl | ht''
        · exact Nat.le_refl _
        · exact decide_eq_true_eq.mp (hp.1 t' ht'')

/-- C1: whenever every job record parses, a successful `dequeueJob`
returns a queued task record of a job whose priority is maximal among
all jobs that still have queued tasks, and that task's number is
minimal among that job's queued tasks (so a higher-priority job with no
queued work is skipped); `dequeueJob` returns `none` exactly when no
job has any queued task. -/
theorem dequeueJob_highest_priority_first_task (db : DB)
    (hjobs : ∀ jf ∈ db.jobs, jf.data ≠ none) :
    (∀ t, dequeueJob db = .ok (some t) →
      ∃ j, (∃ jf ∈ db.jobs, jf.data = some j)
        ∧ t ∈ getQueuedTasks db j.jobID
        ∧ (∀ j', (∃ jf ∈ db.jobs, jf.data = some j') →
            getQueuedTasks db j'.jobID ≠ [] → j'.priority ≤ j.priority)
        ∧ (∀ t' ∈ getQueuedTasks db j.jobID, t.taskNo ≤ t'.taskNo))
    ∧ (dequeueJob db = .ok none ↔
        ∀ j, (∃ jf ∈ db.jobs, jf.data = some j) →
          getQueuedTasks db j.jobID = []) := by
  obtain ⟨L, hL, hiff⟩ := getJobsLoop_ok db.jobs hjobs
  have hdq : dequeueJob db
      = .ok (dequeueLoop db
          (sortBy (fun a b => decide (b.priority ≤ a.priority)) L)) := by
    rw [dequeueJob, getJobs, hL]
  have hSmem : ∀ j, j ∈ sortBy (fun a b : JobData =>
      decide (b.priority ≤ a.priority)) L ↔ ∃ jf ∈ db.jobs, jf.data = some j :=
    fun j => mem_sortBy.trans (hiff j)
  constructor
  · intro t ht
    rw [hdq] at ht
    simp only [Except.ok.injEq] at ht
    obtain ⟨l1, j, l2, hsplit, hpre, hmem, hmin⟩ :=
      dequeueLoop_some db _ t ht
    refine ⟨j, ?_, hmem, ?_, hmin⟩
    · refine (hSmem j).mp ?_
      rw [hsplit]
      exact List.mem_append.mpr (Or.inr (List.mem_cons_self j l2))
    · intro j' hj' hne
      have hj'S : j' ∈ l1 ++ j :: l2 := by
        rw [← hsplit]
        exact (hSmem j').mpr hj'
      rcases List.mem_append.mp hj'S with hj'1 | hj'2
      · exact absurd (hpre j' hj'1) hne
      · rcases List.mem_cons.mp hj'2 with rfl | hj'2
        · exact Int.le_refl _
        · have hp := @sortBy_pairwise JobData
            (fun a b : JobData => decide (b.priority ≤ a.priority))
            (fun a b c hab hbc => by
              rw [decide_eq_true_eq] at hab hbc ⊢
              exact Int.le_trans hbc hab)
            (fun a b => by
              rw [decide_eq_true_eq, decide_eq_true_eq]
              exact Int.le_total b.priority a.priority)
            L
          rw [hsplit, List.pairwise_append] at hp
          have := hp.2.1
          rw [List.pairwise_cons] at this
          exact decide_eq_true_eq.mp (this.1 j' hj'2)
  · rw [hdq]
    constructor
    · intro h j hj
      simp only [Except.ok.injEq] at h
      exact (dequeueLoop_none_iff db _).mp h j ((hSmem j).mpr hj)
    · intro h
      have : dequeueLoop db
          (sortBy (fun a b : JobData => decide (b.priority ≤ a.priority)) L)
            = none :=
        (dequeueLoop_none_iff db _).mpr (fun j hj => h j ((hSmem j).mp hj))
      rw [this]

/-- C1 (witness): in `dbDequeue` the highest-priority job `a` (priority
90) has no queued tasks, so `dequeueJob` selects job `b` (priority 50)
and returns its lowest-numbered queued task, task 0. -/
theorem dequeueJob_highest_priority_first_task_witness :
    dequeueJob dbDequeue = .ok (some ⟨"b", 0, "1-5"⟩)
    ∧ ∃ j, (∃ jf ∈ dbDequeue.jobs, jf.data = some j)
        ∧ (⟨"b", 0, "1-5"⟩ : TaskData) ∈ getQueuedTasks dbDequeue j.jobID
        ∧ (∀ j', (∃ jf ∈ dbDequeue.jobs, jf.data = some j') →
            getQueuedTasks dbDequeue j'.jobID ≠ [] →
              j'.priority ≤ j.priority)
        ∧ (∀ t' ∈ getQueuedTasks dbDequeue j.jobID,
            (⟨"b", 0, "1-5"⟩ : TaskData).taskNo ≤ t'.taskNo) := by
  have hrun : dequeueJob dbDequeue = .ok (some ⟨"b", 0, "1-5"⟩) := by rfl
  exact ⟨hrun,
    (dequeueJob_highest_priority_first_task dbDequeue (by decide)).1
      ⟨"b", 0, "1-5"⟩ hrun⟩

theorem combineReads_ok_of (db : DB) (jid : String) (first : Nat) :
    ∀ (l : List Nat) (tfs : Nat → TaskFile),
      (∀ tid ∈ l, findQueuedTask db jid tid = some (tfs tid)) →
      ∃ nd dels, combineReads db jid first l
        = .ok (l.flatMap (fun tid => numList (tfs tid).data.frames), nd, dels)
  | [], tfs => by
    intro _
    exact ⟨none, [], rfl⟩
  | tid :: rest, tfs => by
    intro h
    obtain ⟨nd, dels, ih⟩ := combineReads_ok_of db jid first rest tfs
      (fun x hx => h x (List.mem_cons_of_mem tid hx))
    have hfind := h tid (List.mem_cons_self tid rest)
    by_cases heq : tid = first
    · refine ⟨(match nd with | some d => some d | none => some (tfs tid).data),
        dels, ?_⟩
      simp only [combineReads, hfind, ih, if_pos heq, List.flatMap_cons]
      cases nd <;> rfl
    · refine ⟨nd, tid :: dels, ?_⟩
      simp only [combineReads, hfind, ih, if_neg heq, List.flatMap_cons]

theorem combineReads_not_first (db : DB) (jid : String) (first : Nat) :
    ∀ (l : List Nat) (tfs : Nat → TaskFile),
      (∀ tid ∈ l, findQueuedTask db jid tid = some (tfs tid)) →
      first ∉ l →
      combineReads db jid first l
        = .ok (l.flatMap (fun tid => numList (tfs tid).data.frames), none, l)
  | [], tfs => by
    intro _ _
    rfl
  | tid :: rest, tfs => by
    intro h hni
    have hfind := h tid (List.mem_cons_self tid rest)
    have ihr := combineReads_not_first db jid first rest tfs
      (fun x hx => h x (List.mem_cons_of_mem tid hx))
      (fun hx => hni (List.mem_cons_of_mem tid hx))
    have hne : tid ≠ first := fun hx =>
      hni (hx ▸ List.mem_cons_self tid rest)
    simp only [combineReads, hfind, ihr, if_neg hne, List.flatMap_cons]

theorem combineReads_head (db : DB) (jid : String) (t0 : Nat)
    (rest : List Nat) (tfs : Nat → TaskFile)
    (h : ∀ tid ∈ t0 :: rest, findQueuedTask db jid tid = some (tfs tid))
    (hni : t0 ∉ rest) :
    combineReads db jid t0 (t0 :: rest)
      = .ok ((t0 :: rest).flatMap (fun tid => numList (tfs tid).data.frames),
          some (tfs t0).data, rest) := by
  have hfind := h t0 (List.mem_cons_self t0 rest)
  have ihr := combineReads_not_first db jid t0 rest tfs
    (fun x hx => h x (List.mem_cons_of_mem t0 hx)) hni
  simp only [combineReads, hfind, ihr, List.flatMap_cons]
  simp

/-- C3: when at least two task ids are given, all their queued records
exist, and the union of their parsed frame lists is not one contiguous
ascending range of more than one frame, `combineTasks` fails with the
non-contiguous-range error and the database is returned unchanged: the
contiguity check precedes every deletion and write, so every original
task record is still queued, untouched. -/
theorem combineTasks_noncontiguous_no_mutation (db : DB) (jid : String)
    (taskIDs : List Nat) (tfs : Nat → TaskFile)
    (hlen : 2 ≤ taskIDs.length)
    (hfind : ∀ tid ∈ taskIDs, findQueuedTask db jid tid = some (tfs tid))
    (hgap : contiguousRange (taskIDs.flatMap
      (fun tid => numList (tfs tid).data.frames)) = none) :
    combineTasks db jid taskIDs = (db, .error .nonContiguousRange) := by
  obtain ⟨nd, dels, hreads⟩ :=
    combineReads_ok_of db jid (taskIDs.headD 0) taskIDs tfs hfind
  have hlt : ¬ taskIDs.length < 2 := by omega
  simp only [combineTasks, if_neg hlt, hreads, hgap]

/-- C3 (witness): combining the queued tasks with frames `1-5` and
`8-10` (a gapped union) fails with the non-contiguous-range error and
leaves the database exactly as it was. -/
theorem combineTasks_noncontiguous_no_mutation_witness :
    combineTasks dbGapTasks "j" [0, 1]
      = (dbGapTasks, .error .nonContiguousRange) :=
  combineTasks_noncontiguous_no_mutation dbGapTasks "j" [0, 1]
    (fun tid => if tid = 0 then ⟨"j", 0, ⟨"j", 0, "1-5"⟩⟩
      else ⟨"j", 1, ⟨"j", 1, "8-10"⟩⟩)
    (by decide) (by decide) (by decide)

theorem writeTaskFile_mem_self (area : List TaskFile) (tf : TaskFile) :
    tf ∈ writeTaskFile area tf := by
  rw [writeTaskFile]
  split
  · rename_i hany
    obtain ⟨g, hg, hgk⟩ := List.any_eq_true.mp hany
    exact List.mem_map.mpr ⟨g, hg, by rw [if_pos hgk]⟩
  · exact List.mem_append.mpr (Or.inr (List.mem_singleton.mpr rfl))

theorem writeTaskFile_mem (area : List TaskFile) (tf x : TaskFile)
    (hx : x ∈ writeTaskFile area tf) : x = tf ∨ x ∈ area := by
  rw [writeTaskFile] at hx
  split at hx
  · obtain ⟨g, hg, hgx⟩ := List.mem_map.mp hx
    by_cases hc : (g.fJobID == tf.fJobID && g.fTaskNo == tf.fTaskNo) = true
    · rw [if_pos hc] at hgx
      exact Or.inl hgx.symm
    · rw [if_neg hc] at hgx
      exact Or.inr (hgx ▸ hg)
  · rcases List.mem_append.mp hx with hx | hx
    · exact Or.inr hx
    · exact Or.inl (List.mem_singleton.mp hx)

theorem removeFold_subset (jid : String) :
    ∀ (dels : List Nat) (db : DB) (tf : TaskFile),
      tf ∈ (dels.foldl (fun d tid => removeQueuedTask d jid tid) db).queued →
      tf ∈ db.queued
  | [], db, tf => fun h => h
  | td :: rest, db, tf => by
    intro h
    rw [List.foldl_cons] at h
    have := removeFold_subset jid rest (removeQueuedTask db jid td) tf h
    exact (List.mem_filter.mp this).1

theorem removeFold_removed (jid : String) :
    ∀ (dels : List Nat) (db : DB) (tid : Nat), tid ∈ dels →
      ∀ tf ∈ (dels.foldl (fun d tid => removeQueuedTask d jid tid) db).queued,
        ¬(tf.fJobID = jid ∧ tf.fTaskNo = tid)
  | [], db, tid => by
    intro h
    cases h
  | td :: rest, db, tid => by
    intro htid tf htf
    rw [List.foldl_cons] at htf
    rcases List.mem_cons.mp htid with rfl | htid
    · have := removeFold_subset jid rest (removeQueuedTask db jid tid) tf htf
      have hfil := (List.mem_filter.mp this).2
      rintro ⟨h1, h2⟩
      rw [Bool.not_eq_eq_eq_not, Bool.not_true, Bool.and_eq_false_iff] at hfil
      rcases hfil with hfil | hfil <;> simp [h1, h2] at hfil
    · exact removeFold_removed jid rest (removeQueuedTask db jid td) tid htid
        tf htf

/-- C4: a successful combine of at least two distinct queued tasks
whose parsed frame lists union to a single contiguous ascending range
`a..b` keeps the first listed task, rewriting its frame set to the
combined range string, deletes every other listed task's queued record,
and returns the first task's identifier. -/
theorem combineTasks_success_combines (db : DB) (jid : String)
    (t0 : Nat) (rest : List Nat) (tfs : Nat → TaskFile) (a b : Int)
    (hrest : rest ≠ []) (hnd : (t0 :: rest).Nodup)
    (hfind : ∀ tid ∈ t0 :: rest,
      findQueuedTask db jid tid = some (tfs tid))
    (hcontig : contiguousRange ((t0 :: rest).flatMap
      (fun tid => numList (tfs tid).data.frames)) = some (a, b)) :
    (combineTasks db jid (t0 :: rest)).2 = .ok t0
    ∧ (⟨jid, t0, { (tfs t0).data with frames := rangeString a b }⟩ :
        TaskFile) ∈ (combineTasks db jid (t0 :: rest)).1.queued
    ∧ ∀ tid ∈ rest, ∀ tf ∈ (combineTasks db jid (t0 :: rest)).1.queued,
        ¬(tf.fJobID = jid ∧ tf.fTaskNo = tid) := by
  obtain ⟨hni, hndrest⟩ := List.nodup_cons.mp hnd
  have hreads := combineReads_head db jid t0 rest tfs hfind hni
  have hlt : ¬ (t0 :: rest).length < 2 := by
    have := List.length_pos.mpr hrest
    simp only [List.length_cons]
    omega
  have hcomb : combineTasks db jid (t0 :: rest)
      = (writeQueuedTask
          (rest.foldl (fun d tid => removeQueuedTask d jid tid) db)
          jid t0 { (tfs t0).data with frames := rangeString a b },
         .ok t0) := by
    simp only [combineTasks, if_neg hlt, List.headD_cons, hreads, hcontig]
  refine ⟨by rw [hcomb], ?_, ?_⟩
  · rw [hcomb]
    exact writeTaskFile_mem_self _ _
  · intro tid htid tf htf
    rw [hcomb] at htf
    rcases writeTaskFile_mem _ _ _ htf with rfl | htf
    · rintro ⟨-, h2⟩
      have h2' : t0 = tid := h2
      exact hni (h2' ▸ htid)
    · exact removeFold_removed jid rest db tid htid tf htf

/-- C4 (witness): combining queued tasks 0 (`1-5`) and 1 (`6-10`) of
job `j` succeeds, returns task 0, rewrites its frame set to `1-10`, and
removes task 1 from the queued area. -/
theorem combineTasks_success_combines_witness :
    (combineTasks dbTwoTasks "j" [0, 1]).2 = .ok 0
    ∧ (⟨"j", 0, ⟨"j", 0, "1-10"⟩⟩ : TaskFile)
        ∈ (combineTasks dbTwoTasks "j" [0, 1]).1.queued
    ∧ ∀ tf ∈ (combineTasks dbTwoTasks "j" [0, 1]).1.queued,
        ¬(tf.fJobID = "j" ∧ tf.fTaskNo = 1) := by
  have h := combineTasks_success_combines dbTwoTasks "j" 0 [1]
    (fun tid => if tid = 0 then ⟨"j", 0, ⟨"j", 0, "1-5"⟩⟩
      else ⟨"j", 1, ⟨"j", 1, "6-10"⟩⟩) 1 10
    (by decide) (by decide) (by decide) (by decide)
  refine ⟨h.1, ?_, fun tf htf => h.2.2 1 (List.mem_singleton.mpr rfl) tf htf⟩
  have hr : rangeString 1 10 = "1-10" := by decide
  have := h.2.1
  rw [hr] at this
  exact this

end RenderQueue
